import Mathlib

set_option maxRecDepth 1000000

/-!
Verification of the DataManagementProject ETL scripts.

Each Python script of the repository is embedded as a set of Lean
definitions (one namespace per script), and the specified properties are
proved or refuted about those definitions.  Tables are embedded as lists
of rows, a row being an association list from column name to an optional
cell value (absent value = `none`, the embedding of pandas `NaN`).
Python standard-library text primitives used by the scripts are modelled
in namespace `Py` over the character subset the data exercises
(ASCII and the Latin-1 letter block).
-/

namespace Py

/-- Python whitespace characters recognised by both the regex class and
the no-argument form of the split method (ASCII subset). -/
def isPyWhitespace (c : Char) : Bool :=
  c == ' ' || c == '\t' || c == '\n' || c == '\r' ||
    c == Char.ofNat 11 || c == Char.ofNat 12

/-- Model of the Python lower method on one character: ASCII A-Z and the
Latin-1 uppercase letters 0xC0-0xDE (except the multiplication sign 0xD7)
map to their lowercase forms 32 code points higher; everything else is
unchanged. -/
def lowerChar (c : Char) : Char :=
  if 'A' ≤ c && c ≤ 'Z' then Char.ofNat (c.toNat + 32)
  else if 0xC0 ≤ c.toNat && c.toNat ≤ 0xDE && c.toNat != 0xD7 then
    Char.ofNat (c.toNat + 32)
  else c

/-- Model of the Python strip method with no arguments: remove leading
and trailing whitespace. -/
def stripChars (l : List Char) : List Char :=
  ((l.dropWhile isPyWhitespace).reverse.dropWhile isPyWhitespace).reverse

/-- Model of the Python split method with no arguments: split on runs of
whitespace, dropping empty pieces.  `cur` is the current piece, reversed. -/
def splitWsGo : List Char → List Char → List (List Char)
  | [], cur => if cur.isEmpty then [] else [cur.reverse]
  | c :: rest, cur =>
    if isPyWhitespace c then
      if cur.isEmpty then splitWsGo rest [] else cur.reverse :: splitWsGo rest []
    else splitWsGo rest (c :: cur)

def splitWs (l : List Char) : List (List Char) := splitWsGo l []

/-- Model of the Python join method on a list of pieces. -/
def joinWith (sep : List Char) : List (List Char) → List Char
  | [] => []
  | [x] => x
  | x :: xs => x ++ sep ++ joinWith sep xs

/-- Model of the Python split method with a one-character separator:
split at every occurrence, keeping empty pieces. -/
def splitOnGo (d : Char) : List Char → List Char → List (List Char)
  | [], cur => [cur.reverse]
  | c :: rest, cur =>
    if c == d then cur.reverse :: splitOnGo d rest []
    else splitOnGo d rest (c :: cur)

def splitOn (d : Char) (l : List Char) : List (List Char) := splitOnGo d l []

/-- Python strip on strings. -/
def strip (s : String) : String := String.mk (stripChars s.data)

/-- Python lower on strings. -/
def lower (s : String) : String := String.mk (s.data.map lowerChar)

end Py

namespace ChartsCleaning2

/-- Embedding of normalize_text from charts_cleaning_2.py: absent values
become the empty string; otherwise lowercase, delete every character that
is not a lowercase ASCII letter, an ASCII digit or whitespace, then
collapse whitespace runs by splitting and rejoining with single spaces. -/
def keepChar (c : Char) : Bool :=
  ('a' ≤ c && c ≤ 'z') || ('0' ≤ c && c ≤ '9') || Py.isPyWhitespace c

def normalizeChars (l : List Char) : List Char :=
  Py.joinWith [' '] (Py.splitWs ((l.map Py.lowerChar).filter keepChar))

def normalize_text : Option String → String
  | none => ""
  | some t => String.mk (normalizeChars t.data)

end ChartsCleaning2

namespace Py

/-- Model of the Python unicodedata NFD decomposition of one character,
over the subset the data exercises: the Latin-1 lowercase accented
letters decompose into base letter plus combining mark; every other
character is its own decomposition. -/
def nfdChar (c : Char) : List Char :=
  match c.toNat with
  | 0xE0 => ['a', Char.ofNat 0x300]
  | 0xE1 => ['a', Char.ofNat 0x301]
  | 0xE2 => ['a', Char.ofNat 0x302]
  | 0xE3 => ['a', Char.ofNat 0x303]
  | 0xE4 => ['a', Char.ofNat 0x308]
  | 0xE5 => ['a', Char.ofNat 0x30A]
  | 0xE7 => ['c', Char.ofNat 0x327]
  | 0xE8 => ['e', Char.ofNat 0x300]
  | 0xE9 => ['e', Char.ofNat 0x301]
  | 0xEA => ['e', Char.ofNat 0x302]
  | 0xEB => ['e', Char.ofNat 0x308]
  | 0xEC => ['i', Char.ofNat 0x300]
  | 0xED => ['i', Char.ofNat 0x301]
  | 0xEE => ['i', Char.ofNat 0x302]
  | 0xEF => ['i', Char.ofNat 0x308]
  | 0xF1 => ['n', Char.ofNat 0x303]
  | 0xF2 => ['o', Char.ofNat 0x300]
  | 0xF3 => ['o', Char.ofNat 0x301]
  | 0xF4 => ['o', Char.ofNat 0x302]
  | 0xF5 => ['o', Char.ofNat 0x303]
  | 0xF6 => ['o', Char.ofNat 0x308]
  | 0xF9 => ['u', Char.ofNat 0x300]
  | 0xFA => ['u', Char.ofNat 0x301]
  | 0xFB => ['u', Char.ofNat 0x302]
  | 0xFC => ['u', Char.ofNat 0x308]
  | 0xFD => ['y', Char.ofNat 0x301]
  | 0xFF => ['y', Char.ofNat 0x308]
  | _ => [c]

/-- Model of the unicodedata category Mn test: the Combining Diacritical
Marks block. -/
def isCombiningMark (c : Char) : Bool :=
  0x300 ≤ c.toNat && c.toNat ≤ 0x36F

/-- Model of the Python regex word-character class over ASCII and
Latin-1: ASCII alphanumerics, the underscore, and the Latin-1 letters. -/
def isWordChar (c : Char) : Bool :=
  ('a' ≤ c && c ≤ 'z') || ('A' ≤ c && c ≤ 'Z') || ('0' ≤ c && c ≤ '9') ||
    c == '_' || c.toNat == 0xAA || c.toNat == 0xB5 || c.toNat == 0xBA ||
    (0xC0 ≤ c.toNat && c.toNat ≤ 0xFF && c.toNat != 0xD7 && c.toNat != 0xF7)

end Py

namespace MD5

/-- Per-round additive constants of RFC 1321. -/
def K : List Nat :=
  [0xd76aa478, 0xe8c7b756, 0x242070db, 0xc1bdceee,
   0xf57c0faf, 0x4787c62a, 0xa8304613, 0xfd469501,
   0x698098d8, 0x8b44f7af, 0xffff5bb1, 0x895cd7be,
   0x6b901122, 0xfd987193, 0xa679438e, 0x49b40821,
   0xf61e2562, 0xc040b340, 0x265e5a51, 0xe9b6c7aa,
   0xd62f105d, 0x02441453, 0xd8a1e681, 0xe7d3fbc8,
   0x21e1cde6, 0xc33707d6, 0xf4d50d87, 0x455a14ed,
   0xa9e3e905, 0xfcefa3f8, 0x676f02d9, 0x8d2a4c8a,
   0xfffa3942, 0x8771f681, 0x6d9d6122, 0xfde5380c,
   0xa4beea44, 0x4bdecfa9, 0xf6bb4b60, 0xbebfbc70,
   0x289b7ec6, 0xeaa127fa, 0xd4ef3085, 0x04881d05,
   0xd9d4d039, 0xe6db99e5, 0x1fa27cf8, 0xc4ac5665,
   0xf4292244, 0x432aff97, 0xab9423a7, 0xfc93a039,
   0x655b59c3, 0x8f0ccc92, 0xffeff47d, 0x85845dd1,
   0x6fa87e4f, 0xfe2ce6e0, 0xa3014314, 0x4e0811a1,
   0xf7537e82, 0xbd3af235, 0x2ad7d2bb, 0xeb86d391]

/-- Per-round left-rotation amounts of RFC 1321. -/
def S : List Nat :=
  [7, 12, 17, 22, 7, 12, 17, 22, 7, 12, 17, 22, 7, 12, 17, 22,
   5, 9, 14, 20, 5, 9, 14, 20, 5, 9, 14, 20, 5, 9, 14, 20,
   4, 11, 16, 23, 4, 11, 16, 23, 4, 11, 16, 23, 4, 11, 16, 23,
   6, 10, 15, 21, 6, 10, 15, 21, 6, 10, 15, 21, 6, 10, 15, 21]

def mask32 : Nat := 0xFFFFFFFF

def rotl (x s : Nat) : Nat := ((x <<< s) ||| (x >>> (32 - s))) &&& mask32

structure MDState where
  a : Nat
  b : Nat
  c : Nat
  d : Nat

def initState : MDState := ⟨0x67452301, 0xefcdab89, 0x98badcfe, 0x10325476⟩

/-- One of the 64 MD5 steps, on the 16 little-endian words `M` of the
current block. -/
def step (M : List Nat) (st : MDState) (i : Nat) : MDState :=
  let fg : Nat × Nat :=
    if i < 16 then ((st.b &&& st.c) ||| ((st.b ^^^ mask32) &&& st.d), i)
    else if i < 32 then
      ((st.d &&& st.b) ||| ((st.d ^^^ mask32) &&& st.c), (5 * i + 1) % 16)
    else if i < 48 then (st.b ^^^ st.c ^^^ st.d, (3 * i + 5) % 16)
    else (st.c ^^^ (st.b ||| (st.d ^^^ mask32)), (7 * i) % 16)
  let tmp := (st.a + fg.1 + K.getD i 0 + M.getD fg.2 0) &&& mask32
  ⟨st.d, (st.b + rotl tmp (S.getD i 0)) &&& mask32, st.b, st.c⟩

/-- Compress one 64-byte block into the state. -/
def processBlock (st : MDState) (block : List Nat) : MDState :=
  let M := (List.range 16).map fun j =>
    block.getD (4 * j) 0 + (block.getD (4 * j + 1) 0) <<< 8 +
      (block.getD (4 * j + 2) 0) <<< 16 + (block.getD (4 * j + 3) 0) <<< 24
  let r := (List.range 64).foldl (step M) st
  ⟨(st.a + r.a) &&& mask32, (st.b + r.b) &&& mask32,
   (st.c + r.c) &&& mask32, (st.d + r.d) &&& mask32⟩

/-- Consume the padded byte stream 64 bytes at a time; `buf` is the
partially filled current block. -/
def md5Blocks : MDState → List Nat → List Nat → MDState
  | st, _, [] => st
  | st, buf, b :: rest =>
    let buf2 := buf ++ [b]
    if buf2.length == 64 then md5Blocks (processBlock st buf2) [] rest
    else md5Blocks st buf2 rest

/-- `k` little-endian bytes of `n`. -/
def leBytes (k n : Nat) : List Nat :=
  (List.range k).map fun i => (n >>> (8 * i)) &&& 255

/-- RFC 1321 padding: a 0x80 byte, zeros to 56 mod 64, then the bit
length as eight little-endian bytes. -/
def pad (msg : List Nat) : List Nat :=
  msg ++ 0x80 :: List.replicate ((119 - msg.length % 64) % 64) 0 ++
    leBytes 8 ((8 * msg.length) % 2 ^ 64)

/-- The 16 digest bytes of a byte message. -/
def md5 (msg : List Nat) : List Nat :=
  let st := md5Blocks initState [] (pad msg)
  leBytes 4 st.a ++ leBytes 4 st.b ++ leBytes 4 st.c ++ leBytes 4 st.d

def hexDigitChar (n : Nat) : Char := "0123456789abcdef".data.getD n '0'

def byteToHex (b : Nat) : List Char := [hexDigitChar (b / 16), hexDigitChar (b % 16)]

/-- UTF-8 encoding of one character. -/
def utf8Char (c : Char) : List Nat :=
  let n := c.toNat
  if n < 0x80 then [n]
  else if n < 0x800 then [0xC0 + n / 64, 0x80 + n % 64]
  else if n < 0x10000 then [0xE0 + n / 4096, 0x80 + n / 64 % 64, 0x80 + n % 64]
  else [0xF0 + n / 262144, 0x80 + n / 4096 % 64, 0x80 + n / 64 % 64, 0x80 + n % 64]

/-- UTF-8 encoding of a string, as a byte list. -/
def utf8 (s : String) : List Nat := s.data.flatMap utf8Char

/-- Model of hashlib md5 hexdigest on the UTF-8 encoding of a string. -/
def hexOfString (s : String) : String := String.mk ((md5 (utf8 s)).flatMap byteToHex)

end MD5

/-! Embedding of pandas tables: a row is an association list from column
name to optional cell value (`none` = NaN), a data frame is a column list
plus a row list. -/

/-- One table row. -/
abbrev Row : Type := List (String × Option String)

/-- Reading a cell: the first binding of the column, absent = NaN. -/
def getCell : Row → String → Option String
  | [], _ => none
  | p :: rest, c => if p.1 = c then p.2 else getCell rest c

/-- Column assignment on one row: overwrite the binding when the column
exists, append it otherwise (pandas column assignment). -/
def setCell (r : Row) (c : String) (v : Option String) : Row :=
  if (List.any r fun p => p.1 = c) then
    List.map (fun p => if p.1 = c then (c, v) else p) r
  else r ++ [(c, v)]

/-- Dropping columns from one row. -/
def dropCells (r : Row) (cs : List String) : Row :=
  List.filter (fun p => p.1 ∉ cs) r

/-- Reindexing a row to a column list, as pandas column selection does:
one binding per requested column, absent values for missing ones. -/
def reindexRow (cols : List String) (r : Row) : Row :=
  cols.map fun c => (c, getCell r c)

/-- A data frame. -/
structure DF where
  cols : List String
  rows : List Row
  deriving DecidableEq

/-- Dropping a column from a data frame. -/
def dropColumn (df : DF) (c : String) : DF :=
  { cols := df.cols.filter (· ≠ c), rows := df.rows.map (dropCells · [c]) }

/-- The keep-first duplicate filter behind the pandas duplicated mask
with keep set to first: a row is dropped exactly when a row with the
same key occurred earlier; `seen` holds the keys already encountered. -/
def dedupFirst {α κ : Type} [DecidableEq κ] (key : α → κ) :
    List κ → List α → List α
  | _, [] => []
  | seen, r :: rs =>
    if key r ∈ seen then dedupFirst key seen rs
    else r :: dedupFirst key (key r :: seen) rs

namespace TracksCleaning2

/-- Embedding of normalize_text from tracks_cleaning_2.py: absent values
become the empty string; otherwise lowercase, NFD-decompose, delete
combining marks, delete everything outside word characters and
whitespace, collapse whitespace runs, strip. -/
def normalize_text : Option String → String
  | none => ""
  | some t =>
    let l := t.data.map Py.lowerChar
    let l := (l.map Py.nfdChar).flatten
    let l := l.filter fun c => !Py.isCombiningMark c
    let l := l.filter fun c => Py.isWordChar c || Py.isPyWhitespace c
    String.mk (Py.stripChars (Py.joinWith [' '] (Py.splitWs l)))

/-- Embedding of generate_song_id from tracks_cleaning_2.py: MD5 hex
digest of the normalized song and artist joined by a vertical bar. -/
def generate_song_id (song artist : Option String) : String :=
  MD5.hexOfString (normalize_text song ++ "|" ++ normalize_text artist)

/-- The canonical key of a row: the pair of normalized song and artist
fields. -/
def rowKey (songCol artistCol : String) (r : Row) : String × String :=
  (normalize_text (getCell r songCol), normalize_text (getCell r artistCol))

/-- The song_id column assignment on one row. -/
def addSongId (songCol artistCol : String) (r : Row) : Row :=
  setCell r "song_id"
    (some (generate_song_id (getCell r songCol) (getCell r artistCol)))

/-- The two temporary normalized columns used for duplicate detection,
assigned on one row. -/
def addNormCols (songCol artistCol : String) (r : Row) : Row :=
  setCell
    (setCell r "normalized_song" (some (normalize_text (getCell r songCol))))
    "normalized_artist" (some (normalize_text (getCell r artistCol)))

/-- The duplicate-detection key: the pair of temporary normalized
columns. -/
def normColsKey (r : Row) : Option String × Option String :=
  (getCell r "normalized_song", getCell r "normalized_artist")

/-- The final per-row cleanup: drop the temporary columns and reindex to
the output column order. -/
def finalizeRow (cols : List String) (r : Row) : Row :=
  reindexRow cols (dropCells r ["normalized_song", "normalized_artist"])

/-- Embedding of remove_duplicates_and_generate_ids from
tracks_cleaning_2.py, file handling aside: missing song or artist column
means no output (the function returns None); otherwise a song_id column
is generated, rows are deduplicated on the pair of temporary normalized
columns keeping first occurrences, the temporary columns are dropped
again and song_id is moved to the front. -/
def remove_duplicates_and_generate_ids (df : DF) (songCol artistCol : String) :
    Option DF :=
  if songCol ∈ df.cols then
    if artistCol ∈ df.cols then
      let withIds := df.rows.map (addSongId songCol artistCol)
      let withNorm := withIds.map (addNormCols songCol artistCol)
      let kept := dedupFirst normColsKey [] withNorm
      let cols1 := if "song_id" ∈ df.cols then df.cols else df.cols ++ ["song_id"]
      let colsFinal := "song_id" :: cols1.filter (· ≠ "song_id")
      some { cols := colsFinal, rows := kept.map (finalizeRow colsFinal) }
    else none
  else none

end TracksCleaning2

namespace ChartsCleaning2

/-- Embedding of generate_song_id from charts_cleaning_2.py: MD5 hex
digest of the normalized song and artist joined by a vertical bar. -/
def generate_song_id (song artist : Option String) : String :=
  MD5.hexOfString (normalize_text song ++ "|" ++ normalize_text artist)

/-- Embedding of extract_main_artist from charts_cleaning_2.py: absent
becomes the empty string, otherwise the part before the first hyphen,
stripped. -/
def extract_main_artist : Option String → String
  | none => ""
  | some a => Py.strip (String.mk ((Py.splitOn '-' a.data).headD []))

/-- Embedding of process_charts_csv from charts_cleaning_2.py, file
handling aside: drop a pre-existing song_id column, then abort (the
raised error is caught and surfaced as no output) when the song or
artist column is missing; otherwise rewrite the artist column with the
main artist, generate the song_id column and move it to the front. -/
def process_charts_csv (df : DF) : Option DF :=
  let df1 := if "song_id" ∈ df.cols then dropColumn df "song_id" else df
  if "song" ∈ df1.cols ∧ "artist" ∈ df1.cols then
    let rows1 := df1.rows.map fun r =>
      setCell r "artist" (some (extract_main_artist (getCell r "artist")))
    let rows2 := rows1.map fun r =>
      setCell r "song_id"
        (some (generate_song_id (getCell r "song") (getCell r "artist")))
    let cols2 := df1.cols ++ ["song_id"]
    let colsFinal := "song_id" :: cols2.filter (· ≠ "song_id")
    some { cols := colsFinal, rows := rows2.map (reindexRow colsFinal) }
  else none

end ChartsCleaning2

namespace ChartsCleaning1

/-- Maximal run of whitespace, one character required: the regex piece
backslash-s-plus at the head of the input. -/
def dropWsPlus : List Char → Option (List Char)
  | [] => none
  | c :: rest =>
    if Py.isPyWhitespace c then some (rest.dropWhile Py.isPyWhitespace) else none

/-- Case-insensitive literal match at the head of the input, returning
the remainder. -/
def matchCI : List Char → List Char → Option (List Char)
  | [], l => some l
  | _ :: _, [] => none
  | k :: ks, c :: cs => if Py.lowerChar c = k then matchCI ks cs else none

/-- The pattern whitespace-x-whitespace. -/
def patX (l : List Char) : Option (List Char) :=
  (dropWsPlus l).bind fun l1 => (matchCI ['x'] l1).bind dropWsPlus

/-- The pattern whitespace-feat-optional-dot-whitespace; the optional
dot is tried greedily, falling back as the regex engine does. -/
def patFeat (l : List Char) : Option (List Char) :=
  (dropWsPlus l).bind fun l1 => (matchCI ['f', 'e', 'a', 't'] l1).bind fun l2 =>
    match l2 with
    | '.' :: r =>
      match dropWsPlus r with
      | some r2 => some r2
      | none => dropWsPlus l2
    | _ => dropWsPlus l2

/-- The pattern whitespace-featuring-whitespace. -/
def patFeaturing (l : List Char) : Option (List Char) :=
  (dropWsPlus l).bind fun l1 =>
    (matchCI ['f', 'e', 'a', 't', 'u', 'r', 'i', 'n', 'g'] l1).bind dropWsPlus

/-- The pattern whitespace-ampersand-whitespace. -/
def patAmp (l : List Char) : Option (List Char) :=
  (dropWsPlus l).bind fun l1 => (matchCI ['&'] l1).bind dropWsPlus

/-- The pattern optional-whitespace-comma-optional-whitespace. -/
def patComma (l : List Char) : Option (List Char) :=
  match l.dropWhile Py.isPyWhitespace with
  | ',' :: r => some (r.dropWhile Py.isPyWhitespace)
  | _ => none

/-- Left-to-right scan of one substitution pattern, replacing each
non-overlapping match by space-hyphen-space; every match consumes at
least one character, so the input length is enough fuel. -/
def subPatGo (pat : List Char → Option (List Char)) : Nat → List Char → List Char
  | 0, l => l
  | _ + 1, [] => []
  | fuel + 1, c :: rest =>
    match pat (c :: rest) with
    | some rest2 => ' ' :: '-' :: ' ' :: subPatGo pat fuel rest2
    | none => c :: subPatGo pat fuel rest

def subPat (pat : List Char → Option (List Char)) (l : List Char) : List Char :=
  subPatGo pat l.length l

/-- Collapse of whitespace runs to single spaces (the final regex
substitution of clean_artist_name). -/
def collapseWsGo : Nat → List Char → List Char
  | 0, l => l
  | _ + 1, [] => []
  | fuel + 1, c :: rest =>
    if Py.isPyWhitespace c then ' ' :: collapseWsGo fuel (rest.dropWhile Py.isPyWhitespace)
    else c :: collapseWsGo fuel rest

def collapseWs (l : List Char) : List Char := collapseWsGo l.length l

/-- Embedding of clean_artist_name from charts_cleaning_1.py: absent
values are returned unchanged; otherwise quotes are deleted, the five
separator patterns are each rewritten to space-hyphen-space, whitespace
runs are collapsed and the ends stripped. -/
def clean_artist_name : Option String → Option String
  | none => none
  | some a =>
    let l := a.data.filter fun c => c ≠ Char.ofNat 34 && c ≠ Char.ofNat 39
    let l := subPat patX l
    let l := subPat patFeat l
    let l := subPat patFeaturing l
    let l := subPat patAmp l
    let l := subPat patComma l
    some (String.mk (Py.stripChars (collapseWs l)))

/-- Embedding of generate_song_id from charts_cleaning_1.py: absent song
or artist yields no id at all; otherwise the first ten characters of the
MD5 hex digest of lowered-and-stripped song, an underscore, and
lowered-and-stripped artist. -/
def generate_song_id (song artist : Option String) : Option String :=
  match song, artist with
  | some s, some a =>
    some ((MD5.hexOfString
      (Py.strip (Py.lower s) ++ "_" ++ Py.strip (Py.lower a))).take 10)
  | _, _ => none

/-- Embedding of process_charts_csv from charts_cleaning_1.py, file
handling aside: each of the three steps is skipped with a printed
warning when its column is missing, and an output data frame is written
in every case. -/
def process_charts_csv (df : DF) : Option DF :=
  let df1 := if "last-week" ∈ df.cols then dropColumn df "last-week" else df
  let df2 :=
    if "artist" ∈ df1.cols then
      { df1 with rows := df1.rows.map fun r =>
          setCell r "artist" (clean_artist_name (getCell r "artist")) }
    else df1
  let df3 :=
    if "song" ∈ df2.cols ∧ "artist" ∈ df2.cols then
      { cols := if "song_id" ∈ df2.cols then df2.cols else df2.cols ++ ["song_id"],
        rows := df2.rows.map fun r =>
          setCell r "song_id"
            (generate_song_id (getCell r "song") (getCell r "artist")) }
    else df2
  let df4 :=
    if "song_id" ∈ df3.cols then
      let colsFinal := "song_id" :: df3.cols.filter (· ≠ "song_id")
      { cols := colsFinal, rows := df3.rows.map (reindexRow colsFinal) }
    else df3
  some df4

end ChartsCleaning1

namespace ArtistsCleaning1

/-- The multi-value split of artists_cleaning_1.py: split on the
delimiter and strip each piece (the comprehension over str.split). -/
def split_multi_value (raw : String) (delim : Char) : List String :=
  (Py.splitOn delim raw.data).map fun p => String.mk (Py.stripChars p)

end ArtistsCleaning1

namespace ArtistsCleaning2

/-- One row of the base artist table of merge_artists. -/
structure BaseRow where
  artist_id : String
  artist_name : String
  deriving DecidableEq

/-- One row of the supplementary artist table of merge_artists. -/
structure TodoRow where
  artist_name : String
  artist_genre : Option String
  artist_img : Option String
  country : Option String
  deriving DecidableEq

/-- One row of the merged output of merge_artists. -/
structure MergedRow where
  artist_id : String
  artist_name : String
  artist_genre : Option String
  artist_img : Option String
  country : Option String
  deriving DecidableEq

/-- The matching key of merge_artists: artist name stripped then
lowered. -/
def rowKey (name : String) : String := Py.lower (Py.strip name)

/-- Embedding of the join of merge_artists from artists_cleaning_2.py:
a left join on the normalized key, as the pandas join does it — every
base row is emitted once per matching supplementary row, in
supplementary order, and once with absent columns when nothing
matches. -/
def merge_artists (base : List BaseRow) (todo : List TodoRow) : List MergedRow :=
  base.flatMap fun b =>
    match todo.filter fun t => rowKey t.artist_name = rowKey b.artist_name with
    | [] => [⟨b.artist_id, b.artist_name, none, none, none⟩]
    | ms => ms.map fun t =>
        ⟨b.artist_id, b.artist_name, t.artist_genre, t.artist_img, t.country⟩

/-- The single output row the join produces for one base row when the
supplementary keys are unique. -/
def joinedRow (todo : List TodoRow) (b : BaseRow) : MergedRow :=
  match todo.find? fun t => decide (rowKey t.artist_name = rowKey b.artist_name) with
  | some t => ⟨b.artist_id, b.artist_name, t.artist_genre, t.artist_img, t.country⟩
  | none => ⟨b.artist_id, b.artist_name, none, none, none⟩

end ArtistsCleaning2

namespace MergeTracksPopularity

/-- Embedding of create_column_mapping from
merge_tracks_and_popularity.py: source column of popularity.csv paired
with destination column of tracks.csv, in dictionary order. -/
def column_mapping : List (String × String) :=
  [("track_id", "id"),
   ("track_name", "name"),
   ("artist_name", "artists"),
   ("acousticness", "acousticness"),
   ("danceability", "danceability"),
   ("duration_ms", "duration_ms"),
   ("energy", "energy"),
   ("instrumentalness", "instrumentalness"),
   ("key", "key"),
   ("liveness", "liveness"),
   ("loudness", "loudness"),
   ("mode", "mode"),
   ("speechiness", "speechiness"),
   ("tempo", "tempo"),
   ("time_signature", "time_signature"),
   ("valence", "valence"),
   ("year", "year")]

/-- The row built for one popularity row: start from all-absent values
over the tracks columns, then copy each mapped value whose source and
destination columns both exist. -/
def newRow (tracksCols popCols : List String) (pr : Row) : Row :=
  column_mapping.foldl
    (fun r p =>
      if p.1 ∈ popCols ∧ p.2 ∈ tracksCols then setCell r p.2 (getCell pr p.1)
      else r)
    (tracksCols.map fun c => (c, none))

/-- Model of pd.concat with ignore_index on two frames: columns are the
first frame columns followed by the unseen second frame columns, every
row reindexed to that set. -/
def concatDF (a b : DF) : DF :=
  let cols := a.cols ++ b.cols.filter (· ∉ a.cols)
  { cols := cols, rows := (a.rows ++ b.rows).map (reindexRow cols) }

/-- Embedding of merge_csv_files from merge_tracks_and_popularity.py,
file handling aside: build one new row per popularity row and append
them all to the tracks frame. -/
def merge_csv_files (tracks pop : DF) : DF :=
  let newRows := pop.rows.map (newRow tracks.cols pop.cols)
  concatDF tracks
    { cols := if pop.rows.isEmpty then [] else tracks.cols, rows := newRows }

end MergeTracksPopularity

namespace ChartsCleaning3

/-- The character set removed from line ends before the suffix test. -/
def isNewlineChar (c : Char) : Bool := c == '\n' || c == '\r'

/-- Model of rstrip with a newline-and-carriage-return argument. -/
def rstripNewlines (l : List Char) : List Char :=
  (l.reverse.dropWhile isNewlineChar).reverse

/-- Whether an rstripped line ends in dot-zero. -/
def endsDotZero (l : List Char) : Bool :=
  decide (l.reverse.take 2 = ['0', '.'])

/-- Remove a final dot-zero, when present, from an already rstripped
line (the conditional slice removing the last two characters). -/
def stripDotZero (l : List Char) : List Char :=
  if endsDotZero l then (l.reverse.drop 2).reverse else l

/-- Embedding of the module body of charts_cleaning_3.py on the list of
lines produced by readlines: the first line is kept as is; every other
line is rstripped of newline characters, loses a final dot-zero when it
has one, and is terminated with a newline. -/
def process (lines : List String) : List String :=
  lines.enum.map fun p =>
    if p.1 = 0 then p.2
    else String.mk (stripDotZero (rstripNewlines p.2.data) ++ ['\n'])

end ChartsCleaning3

/-- The output character set promised by the specification for
normalization: lowercase ASCII letters, ASCII digits and the space.
This definition follows the words of the spec, for comparison with the
normalization variants of the source. -/
def specAllowedChar (c : Char) : Bool :=
  ('a' ≤ c && c ≤ 'z') || ('0' ≤ c && c ≤ '9') || c == ' '


/-! Lemmas about the keep-first duplicate filter. -/

section DedupLemmas

variable {α κ : Type} [DecidableEq κ] (key : α → κ)

theorem dedupFirst_key_not_seen :
    ∀ (rs : List α) (seen : List κ) (r : α),
      r ∈ dedupFirst key seen rs → key r ∉ seen := by
  intro rs
  induction rs with
  | nil => intro seen r h; simp [dedupFirst] at h
  | cons x xs ih =>
    intro seen r h
    by_cases hx : key x ∈ seen
    · rw [dedupFirst, if_pos hx] at h
      exact ih seen r h
    · rw [dedupFirst, if_neg hx] at h
      rcases List.mem_cons.mp h with h | h
      · subst h; exact hx
      · have := ih _ r h
        exact fun hc => this (List.mem_cons_of_mem _ hc)

theorem dedupFirst_sublist :
    ∀ (rs : List α) (seen : List κ), List.Sublist (dedupFirst key seen rs) rs := by
  intro rs
  induction rs with
  | nil => intro seen; simp [dedupFirst]
  | cons x xs ih =>
    intro seen
    by_cases hx : key x ∈ seen
    · rw [dedupFirst, if_pos hx]
      exact (ih seen).cons x
    · rw [dedupFirst, if_neg hx]
      exact (ih (key x :: seen)).cons₂ x

theorem dedupFirst_first_occurrence :
    ∀ (rs : List α) (seen : List κ) (r : α),
      r ∈ dedupFirst key seen rs →
      rs.find? (fun x => decide (key x = key r)) = some r := by
  intro rs
  induction rs with
  | nil => intro seen r h; simp [dedupFirst] at h
  | cons x xs ih =>
    intro seen r h
    by_cases hx : key x ∈ seen
    · rw [dedupFirst, if_pos hx] at h
      have hne : key x ≠ key r := by
        intro he
        exact dedupFirst_key_not_seen key xs seen r h (he ▸ hx)
      rw [List.find?_cons_of_neg _ (by simpa using hne)]
      exact ih seen r h
    · rw [dedupFirst, if_neg hx] at h
      rcases List.mem_cons.mp h with h | h
      · subst h
        rw [List.find?_cons_of_pos _ (by simp)]
      · have hns := dedupFirst_key_not_seen key xs (key x :: seen) r h
        have hne : key x ≠ key r := fun he =>
          hns (he ▸ List.mem_cons_self _ _)
        rw [List.find?_cons_of_neg _ (by simpa using hne)]
        exact ih _ r h

theorem dedupFirst_covers :
    ∀ (rs : List α) (seen : List κ) (r : α),
      r ∈ rs →
      key r ∈ seen ∨ ∃ r2 ∈ dedupFirst key seen rs, key r2 = key r := by
  intro rs
  induction rs with
  | nil => intro seen r h; simp at h
  | cons x xs ih =>
    intro seen r h
    by_cases hx : key x ∈ seen
    · rw [dedupFirst, if_pos hx]
      rcases List.mem_cons.mp h with h | h
      · subst h; exact Or.inl hx
      · exact ih seen r h
    · rw [dedupFirst, if_neg hx]
      rcases List.mem_cons.mp h with h | h
      · subst h
        exact Or.inr ⟨r, List.mem_cons_self _ _, rfl⟩
      · rcases ih (key x :: seen) r h with hs | ⟨r2, hr2, hk⟩
        · rcases List.mem_cons.mp hs with hs | hs
          · exact Or.inr ⟨x, List.mem_cons_self _ _, hs.symm⟩
          · exact Or.inl hs
        · exact Or.inr ⟨r2, List.mem_cons_of_mem _ hr2, hk⟩

theorem dedupFirst_keys_nodup :
    ∀ (rs : List α) (seen : List κ), ((dedupFirst key seen rs).map key).Nodup := by
  intro rs
  induction rs with
  | nil => intro seen; simp [dedupFirst]
  | cons x xs ih =>
    intro seen
    by_cases hx : key x ∈ seen
    · rw [dedupFirst, if_pos hx]; exact ih seen
    · rw [dedupFirst, if_neg hx]
      refine List.nodup_cons.mpr ⟨?_, ih _⟩
      intro hmem
      rcases List.mem_map.mp hmem with ⟨r2, hr2, hk⟩
      exact dedupFirst_key_not_seen key xs _ r2 hr2 (hk ▸ List.mem_cons_self _ _)

theorem dedupFirst_map_comm {β : Type} (f : β → α) :
    ∀ (rs : List β) (seen : List κ),
      dedupFirst key seen (rs.map f) = (dedupFirst (fun b => key (f b)) seen rs).map f := by
  intro rs
  induction rs with
  | nil => intro seen; simp [dedupFirst]
  | cons x xs ih =>
    intro seen
    by_cases hx : key (f x) ∈ seen
    · rw [List.map_cons, dedupFirst, if_pos hx, dedupFirst, if_pos hx]
      exact ih seen
    · rw [List.map_cons, dedupFirst, if_neg hx, dedupFirst, if_neg hx]
      rw [List.map_cons, ih]

theorem dedupFirst_key_congr {κ2 : Type} [DecidableEq κ2] (k2 : α → κ2)
    (h : ∀ x y, key x = key y ↔ k2 x = k2 y) :
    ∀ (rs : List α) (s1 : List κ) (s2 : List κ2),
      (∀ x, key x ∈ s1 ↔ k2 x ∈ s2) →
      dedupFirst key s1 rs = dedupFirst k2 s2 rs := by
  intro rs
  induction rs with
  | nil => intro s1 s2 _; simp [dedupFirst]
  | cons x xs ih =>
    intro s1 s2 hs
    by_cases hx : key x ∈ s1
    · rw [dedupFirst, if_pos hx, dedupFirst, if_pos ((hs x).mp hx)]
      exact ih s1 s2 hs
    · rw [dedupFirst, if_neg hx, dedupFirst, if_neg (fun hc => hx ((hs x).mpr hc))]
      rw [ih (key x :: s1) (k2 x :: s2)]
      intro y
      constructor
      · intro hy
        rcases List.mem_cons.mp hy with hy | hy
        · exact List.mem_cons.mpr (Or.inl ((h y x).mp hy))
        · exact List.mem_cons_of_mem _ ((hs y).mp hy)
      · intro hy
        rcases List.mem_cons.mp hy with hy | hy
        · exact List.mem_cons.mpr (Or.inl ((h y x).mpr hy))
        · exact List.mem_cons_of_mem _ ((hs y).mpr hy)

end DedupLemmas

/-! Lemmas about cell access and assignment. -/

theorem getCell_setCell_same (r : Row) (c : String) (v : Option String) :
    getCell (setCell r c v) c = v := by
  unfold setCell
  by_cases h : (r.any fun p => decide (p.1 = c)) = true
  · rw [if_pos h]
    induction r with
    | nil => simp at h
    | cons p rest ih =>
      simp only [List.any_cons, Bool.or_eq_true, decide_eq_true_eq] at h
      by_cases hp : p.1 = c
      · simp [getCell, hp]
      · rw [List.map_cons, if_neg hp]
        rw [getCell, if_neg hp]
        rcases h with h | h
        · exact absurd h hp
        · exact ih (by simpa using h)
  · rw [if_neg h]
    simp only [Bool.not_eq_true, List.any_eq_false, decide_eq_true_eq] at h
    induction r with
    | nil => simp [getCell]
    | cons p rest ih =>
      rw [List.cons_append, getCell, if_neg (h p (List.mem_cons_self _ _))]
      exact ih fun q hq => h q (List.mem_cons_of_mem _ hq)

theorem getCell_setCell_other (r : Row) (c c2 : String) (v : Option String)
    (hne : c2 ≠ c) : getCell (setCell r c v) c2 = getCell r c2 := by
  have hcc2 : ¬ c = c2 := fun hcc => hne hcc.symm
  unfold setCell
  by_cases h : (r.any fun p => decide (p.1 = c)) = true
  · rw [if_pos h]
    clear h
    induction r with
    | nil => rfl
    | cons p rest ih =>
      rw [List.map_cons]
      by_cases hp : p.1 = c
      · rw [if_pos hp, getCell, getCell, if_neg hcc2, if_neg (hp ▸ hcc2)]
        exact ih
      · rw [if_neg hp, getCell, getCell]
        by_cases hc : p.1 = c2
        · rw [if_pos hc, if_pos hc]
        · rw [if_neg hc, if_neg hc]
          exact ih
  · rw [if_neg h]
    simp only [Bool.not_eq_true, List.any_eq_false, decide_eq_true_eq] at h
    induction r with
    | nil => simp [getCell, hcc2]
    | cons p rest ih =>
      rw [List.cons_append, getCell, getCell]
      by_cases hc : p.1 = c2
      · rw [if_pos hc, if_pos hc]
      · rw [if_neg hc, if_neg hc]
        exact ih fun q hq => h q (List.mem_cons_of_mem _ hq)

theorem getCell_nil_row (c : String) : getCell ([] : Row) c = none := rfl

/-! Shared congruence helpers for the two key generators. -/

theorem charts2_song_id_congr (s a s2 a2 : Option String)
    (h1 : ChartsCleaning2.normalize_text s = ChartsCleaning2.normalize_text s2)
    (h2 : ChartsCleaning2.normalize_text a = ChartsCleaning2.normalize_text a2) :
    ChartsCleaning2.generate_song_id s a = ChartsCleaning2.generate_song_id s2 a2 := by
  unfold ChartsCleaning2.generate_song_id
  rw [h1, h2]

theorem tracks2_song_id_congr (s a s2 a2 : Option String)
    (h1 : TracksCleaning2.normalize_text s = TracksCleaning2.normalize_text s2)
    (h2 : TracksCleaning2.normalize_text a = TracksCleaning2.normalize_text a2) :
    TracksCleaning2.generate_song_id s a = TracksCleaning2.generate_song_id s2 a2 := by
  unfold TracksCleaning2.generate_song_id
  rw [h1, h2]

/-- C3: key derivation is congruent with respect to normalization — for
both generate_song_id variants, fields that normalize equal position by
position give equal canonical keys (each generator joins the two
normalized fields with a vertical bar and hashes with MD5); and calling
a generator twice on the same fields gives the same key. -/
theorem key_derivation_congruence :
    (∀ s a s2 a2 : Option String,
      ChartsCleaning2.normalize_text s = ChartsCleaning2.normalize_text s2 →
      ChartsCleaning2.normalize_text a = ChartsCleaning2.normalize_text a2 →
      ChartsCleaning2.generate_song_id s a = ChartsCleaning2.generate_song_id s2 a2) ∧
    (∀ s a s2 a2 : Option String,
      TracksCleaning2.normalize_text s = TracksCleaning2.normalize_text s2 →
      TracksCleaning2.normalize_text a = TracksCleaning2.normalize_text a2 →
      TracksCleaning2.generate_song_id s a = TracksCleaning2.generate_song_id s2 a2) ∧
    (∀ s a : Option String,
      ChartsCleaning2.generate_song_id s a = ChartsCleaning2.generate_song_id s a ∧
      TracksCleaning2.generate_song_id s a = TracksCleaning2.generate_song_id s a) :=
  ⟨charts2_song_id_congr, tracks2_song_id_congr, fun _ _ => ⟨rfl, rfl⟩⟩

/-- Witness for C3 at concrete inputs. -/
theorem key_derivation_congruence_witness :
    (ChartsCleaning2.normalize_text (some "Hello!") =
        ChartsCleaning2.normalize_text (some "  hello ") ∧
      ChartsCleaning2.generate_song_id (some "Hello!") (some "Adele") =
        ChartsCleaning2.generate_song_id (some "  hello ") (some "ADELE")) ∧
    TracksCleaning2.generate_song_id (some "Café") (some "X") =
      TracksCleaning2.generate_song_id (some "cafe") (some "x") :=
  ⟨⟨by decide, key_derivation_congruence.1 _ _ _ _ (by decide) (by decide)⟩,
   key_derivation_congruence.2.1 _ _ _ _ (by decide) (by decide)⟩

/-- C5 (amended): canonical keys of the tracks_cleaning_2 variant are
invariant under case, surrounding and internal whitespace runs, and
diacritics; the charts_cleaning_2 variant is invariant under case and
whitespace only. -/
theorem canonical_key_insensitivity :
    TracksCleaning2.generate_song_id (some "Perfect") (some "Ed Sheeran") =
      TracksCleaning2.generate_song_id (some "Perfect") (some "  ED   SHEERAN  ") ∧
    TracksCleaning2.generate_song_id (some "Perfect") (some "Ed Sheeran") =
      TracksCleaning2.generate_song_id (some "Perfect") (some "éd shëeran") ∧
    ChartsCleaning2.generate_song_id (some "Perfect") (some "Ed Sheeran") =
      ChartsCleaning2.generate_song_id (some "Perfect") (some "  ED   SHEERAN  ") :=
  ⟨tracks2_song_id_congr _ _ _ _ (by decide) (by decide),
   tracks2_song_id_congr _ _ _ _ (by decide) (by decide),
   charts2_song_id_congr _ _ _ _ (by decide) (by decide)⟩

/-- Counterexample to C5 as stated: the charts_cleaning_2 normalization
deletes accented letters instead of folding them to base letters, so the
accented artist gets a different canonical key there. -/
theorem canonical_key_insensitivity_cx :
    ChartsCleaning2.normalize_text (some "éd shëeran") = "d sheran" ∧
    ChartsCleaning2.generate_song_id (some "Perfect") (some "éd shëeran") ≠
      ChartsCleaning2.generate_song_id (some "Perfect") (some "Ed Sheeran") :=
  ⟨by decide, by decide⟩

/-- C7 (amended): the charts_cleaning_2 and tracks_cleaning_2 variants
normalize an absent field to the empty string and still derive a key;
the charts_cleaning_1 variant instead yields no key exactly when the
song or the artist is absent. -/
theorem absent_field_as_empty :
    (ChartsCleaning2.normalize_text none = "" ∧
      TracksCleaning2.normalize_text none = "") ∧
    (∀ a : Option String,
      ChartsCleaning2.generate_song_id none a =
        ChartsCleaning2.generate_song_id (some "") a ∧
      TracksCleaning2.generate_song_id none a =
        TracksCleaning2.generate_song_id (some "") a) ∧
    (∀ s a : Option String,
      ChartsCleaning1.generate_song_id s a = none ↔ s = none ∨ a = none) := by
  refine ⟨⟨rfl, rfl⟩, fun a => ⟨rfl, rfl⟩, fun s a => ?_⟩
  cases s <;> cases a <;> simp [ChartsCleaning1.generate_song_id]

/-- Counterexample to C7 as stated: charts_cleaning_1 produces a null
key for a row with an absent song field instead of a key derived from
the empty string. -/
theorem absent_field_as_empty_cx :
    ChartsCleaning1.generate_song_id none (some "x") = none ∧
    ∀ k : String, ChartsCleaning1.generate_song_id none (some "x") ≠ some k :=
  ⟨rfl, fun _ => by simp [ChartsCleaning1.generate_song_id]⟩

/-! Character-set lemmas for the charts_cleaning_2 normalization. -/

theorem joinWith_mem (sep : List Char) :
    ∀ (ls : List (List Char)) (c : Char), c ∈ Py.joinWith sep ls →
      c ∈ sep ∨ ∃ p ∈ ls, c ∈ p := by
  intro ls
  induction ls with
  | nil => intro c h; simp [Py.joinWith] at h
  | cons x xs ih =>
    intro c h
    cases xs with
    | nil =>
      simp only [Py.joinWith] at h
      exact Or.inr ⟨x, by simp, h⟩
    | cons y ys =>
      simp only [Py.joinWith] at h
      rcases List.mem_append.mp h with h | h
      · rcases List.mem_append.mp h with h | h
        · exact Or.inr ⟨x, by simp, h⟩
        · exact Or.inl h
      · rcases ih c h with h | ⟨p, hp, hcp⟩
        · exact Or.inl h
        · exact Or.inr ⟨p, List.mem_cons_of_mem _ hp, hcp⟩

theorem splitWsGo_chars (P : Char → Prop) :
    ∀ (l cur : List Char),
      (∀ c ∈ l, Py.isPyWhitespace c = false → P c) →
      (∀ c ∈ cur, Py.isPyWhitespace c = false ∧ P c) →
      ∀ p ∈ Py.splitWsGo l cur, ∀ c ∈ p, Py.isPyWhitespace c = false ∧ P c := by
  intro l
  induction l with
  | nil =>
    intro cur _ hcur p hp c hc
    rw [Py.splitWsGo] at hp
    by_cases he : cur.isEmpty
    · rw [if_pos he] at hp; simp at hp
    · rw [if_neg he] at hp
      simp only [List.mem_singleton] at hp
      subst hp
      exact hcur c (List.mem_reverse.mp hc)
  | cons x rest ih =>
    intro cur hl hcur p hp c hc
    rw [Py.splitWsGo] at hp
    by_cases hx : Py.isPyWhitespace x = true
    · rw [if_pos hx] at hp
      by_cases he : cur.isEmpty
      · rw [if_pos he] at hp
        exact ih []
          (fun c2 hc2 => hl c2 (List.mem_cons_of_mem _ hc2))
          (by simp) p hp c hc
      · rw [if_neg he] at hp
        rcases List.mem_cons.mp hp with hp | hp
        · subst hp
          exact hcur c (List.mem_reverse.mp hc)
        · exact ih []
            (fun c2 hc2 => hl c2 (List.mem_cons_of_mem _ hc2))
            (by simp) p hp c hc
    · rw [if_neg hx] at hp
      have hxf : Py.isPyWhitespace x = false := by
        simpa using hx
      refine ih (x :: cur)
        (fun c2 hc2 => hl c2 (List.mem_cons_of_mem _ hc2)) ?_ p hp c hc
      intro c2 hc2
      rcases List.mem_cons.mp hc2 with hc2 | hc2
      · subst hc2
        exact ⟨hxf, hl c2 (List.mem_cons_self _ _) hxf⟩
      · exact hcur c2 hc2

/-- C4 (amended): for the charts_cleaning_2 normalization every output
character is a lowercase ASCII letter, an ASCII digit or a space, for
every input including absent values; the claim fails for the
tracks_cleaning_2 variant, whose word-character class keeps the
underscore. -/
theorem normalize_output_charset :
    ∀ (t : Option String), ∀ c ∈ (ChartsCleaning2.normalize_text t).data,
      specAllowedChar c = true := by
  intro t c hc
  cases t with
  | none => simp [ChartsCleaning2.normalize_text, String.data] at hc
  | some s =>
    have hc2 : c ∈ ChartsCleaning2.normalizeChars s.data := hc
    unfold ChartsCleaning2.normalizeChars at hc2
    rcases joinWith_mem _ _ c hc2 with h | ⟨p, hp, hcp⟩
    · simp only [List.mem_singleton] at h
      subst h; rfl
    · have hmem := splitWsGo_chars (fun c2 => specAllowedChar c2 = true)
        ((s.data.map Py.lowerChar).filter ChartsCleaning2.keepChar) []
        ?_ (by simp) p hp c hcp
      · exact hmem.2
      · intro c2 hc2 hws
        have hk := (List.mem_filter.mp hc2).2
        simp only [ChartsCleaning2.keepChar] at hk
        rw [hws, Bool.or_false] at hk
        simp only [specAllowedChar, hk, Bool.true_or]

/-- Witness for C4 at a concrete input. -/
theorem normalize_output_charset_witness :
    'a' ∈ (ChartsCleaning2.normalize_text (some "A!b")).data ∧
      specAllowedChar 'a' = true :=
  ⟨by decide, normalize_output_charset (some "A!b") 'a' (by decide)⟩

/-- Counterexample to C4 as stated: the tracks_cleaning_2 normalization
keeps the underscore, which is outside the promised character set. -/
theorem normalize_output_charset_cx :
    TracksCleaning2.normalize_text (some "_") = "_" ∧
    '_' ∈ (TracksCleaning2.normalize_text (some "_")).data ∧
    specAllowedChar '_' = false :=
  ⟨by decide, by decide, by decide⟩

/-! Lemmas for the left join of merge_artists. -/

theorem filter_eq_find_toList_of_nodup {α κ : Type} [DecidableEq κ]
    (f : α → κ) (k : κ) :
    ∀ l : List α, (l.map f).Nodup →
      l.filter (fun x => decide (f x = k)) =
        (l.find? fun x => decide (f x = k)).toList := by
  intro l
  induction l with
  | nil => intro _; rfl
  | cons x xs ih =>
    intro hnd
    rw [List.map_cons] at hnd
    rcases List.nodup_cons.mp hnd with ⟨hx, hxs⟩
    by_cases hk : f x = k
    · rw [List.filter_cons_of_pos (by simpa using hk),
        List.find?_cons_of_pos _ (by simpa using hk)]
      have hnil : xs.filter (fun x2 => decide (f x2 = k)) = [] := by
        rw [List.filter_eq_nil_iff]
        intro a ha hfa
        exact hx (hk ▸ (by simpa using hfa : f a = k) ▸ List.mem_map_of_mem f ha)
      rw [hnil]
      rfl
    · rw [List.filter_cons_of_neg (by simpa using hk),
        List.find?_cons_of_neg _ (by simpa using hk)]
      exact ih hxs

theorem flatMap_singleton_eq_map {α β : Type} (f : α → List β) (g : α → β) :
    ∀ l : List α, (∀ x ∈ l, f x = [g x]) → l.flatMap f = l.map g := by
  intro l
  induction l with
  | nil => intro _; rfl
  | cons x xs ih =>
    intro h
    rw [List.flatMap_cons, List.map_cons, h x (List.mem_cons_self _ _),
      ih fun y hy => h y (List.mem_cons_of_mem _ hy)]
    rfl

namespace ArtistsCleaning2

theorem merge_piece_eq (todo : List TodoRow)
    (hnd : (todo.map fun t => rowKey t.artist_name).Nodup) (b : BaseRow) :
    (match todo.filter fun t => rowKey t.artist_name = rowKey b.artist_name with
      | [] => [(⟨b.artist_id, b.artist_name, none, none, none⟩ : MergedRow)]
      | ms => ms.map fun t =>
          ⟨b.artist_id, b.artist_name, t.artist_genre, t.artist_img, t.country⟩) =
      [joinedRow todo b] := by
  have hfe : (todo.filter fun t => rowKey t.artist_name = rowKey b.artist_name) =
      (todo.find? fun t => decide (rowKey t.artist_name = rowKey b.artist_name)).toList := by
    have := filter_eq_find_toList_of_nodup (fun t : TodoRow => rowKey t.artist_name)
      (rowKey b.artist_name) todo hnd
    simpa using this
  rw [hfe]
  unfold joinedRow
  cases todo.find? fun t => decide (rowKey t.artist_name = rowKey b.artist_name) with
  | none => rfl
  | some t => rfl

end ArtistsCleaning2

/-- C1 (amended): merge_artists is a left join on the stripped-lowered
artist name.  When no supplementary key occurs twice, every base row
appears exactly once, joined with its unique matching row or with
absent supplementary columns when nothing matches; a base row without a
match always yields the row with absent values.  When several
supplementary rows share a key, the pandas join emits one output row
per match, so base rows are duplicated rather than resolved by a
first-match rule (see the counterexample). -/
theorem left_join_enrichment :
    ∀ (base : List ArtistsCleaning2.BaseRow) (todo : List ArtistsCleaning2.TodoRow),
      ((todo.map fun t => ArtistsCleaning2.rowKey t.artist_name).Nodup →
        (ArtistsCleaning2.merge_artists base todo).length = base.length ∧
        ArtistsCleaning2.merge_artists base todo =
          base.map (ArtistsCleaning2.joinedRow todo)) ∧
      (∀ b ∈ base,
        (∀ t ∈ todo,
          ArtistsCleaning2.rowKey t.artist_name ≠ ArtistsCleaning2.rowKey b.artist_name) →
        (⟨b.artist_id, b.artist_name, none, none, none⟩ : ArtistsCleaning2.MergedRow) ∈
          ArtistsCleaning2.merge_artists base todo) := by
  intro base todo
  constructor
  · intro hnd
    have hmap : ArtistsCleaning2.merge_artists base todo =
        base.map (ArtistsCleaning2.joinedRow todo) := by
      unfold ArtistsCleaning2.merge_artists
      exact flatMap_singleton_eq_map _ _ base
        (fun b _ => ArtistsCleaning2.merge_piece_eq todo hnd b)
    exact ⟨by rw [hmap, List.length_map], hmap⟩
  · intro b hb hnone
    unfold ArtistsCleaning2.merge_artists
    refine List.mem_flatMap.mpr ⟨b, hb, ?_⟩
    have hfil : (todo.filter fun t =>
        ArtistsCleaning2.rowKey t.artist_name = ArtistsCleaning2.rowKey b.artist_name) = [] := by
      rw [List.filter_eq_nil_iff]
      intro t ht
      simpa using hnone t ht
    rw [hfil]
    simp

/-- Witness for C1 at concrete tables. -/
theorem left_join_enrichment_witness :
    (ArtistsCleaning2.merge_artists [⟨"1", "A"⟩]
        [⟨"B", some "g", none, none⟩]).length = 1 ∧
    (⟨"1", "A", none, none, none⟩ : ArtistsCleaning2.MergedRow) ∈
      ArtistsCleaning2.merge_artists [⟨"1", "A"⟩] [⟨"B", some "g", none, none⟩] :=
  ⟨((left_join_enrichment [⟨"1", "A"⟩] [⟨"B", some "g", none, none⟩]).1 (by decide)).1,
   (left_join_enrichment [⟨"1", "A"⟩] [⟨"B", some "g", none, none⟩]).2
     ⟨"1", "A"⟩ (by decide) (by decide)⟩

/-- Counterexample to C1 as stated: two supplementary rows sharing one
key duplicate the matching base row — the output has two rows for one
base row, and the second match is attached as well, so no
first-match-wins tie-break happens. -/
theorem left_join_enrichment_cx :
    ArtistsCleaning2.merge_artists [⟨"1", "A"⟩]
        [⟨"a", some "g1", none, none⟩, ⟨"A ", some "g2", none, none⟩] =
      [⟨"1", "A", some "g1", none, none⟩, ⟨"1", "A", some "g2", none, none⟩] ∧
    (ArtistsCleaning2.merge_artists [⟨"1", "A"⟩]
        [⟨"a", some "g1", none, none⟩, ⟨"A ", some "g2", none, none⟩]).length ≠ 1 :=
  ⟨by decide, by decide⟩

/-- C6 (amended): a missing expected column is fatal in
charts_cleaning_2 (the raised error is caught and no output frame is
produced) and in tracks_cleaning_2 (the function returns no output);
charts_cleaning_1 instead skips the affected step with a warning and
always writes an output frame, even when the song or artist column is
absent. -/
theorem schema_mismatch_fatal :
    (∀ df : DF, "song" ∉ df.cols ∨ "artist" ∉ df.cols →
      ChartsCleaning2.process_charts_csv df = none) ∧
    (∀ (df : DF) (s a : String), s ∉ df.cols ∨ a ∉ df.cols →
      TracksCleaning2.remove_duplicates_and_generate_ids df s a = none) ∧
    (∀ df : DF, (ChartsCleaning1.process_charts_csv df).isSome = true) := by
  refine ⟨?_, ?_, ?_⟩
  · intro df h
    unfold ChartsCleaning2.process_charts_csv
    have hmem : ∀ c : String, c ≠ "song_id" →
        (c ∈ (if "song_id" ∈ df.cols then dropColumn df "song_id" else df).cols ↔
          c ∈ df.cols) := by
      intro c hc
      by_cases hs : "song_id" ∈ df.cols
      · rw [if_pos hs]
        simp [dropColumn, List.mem_filter, hc]
      · rw [if_neg hs]
    rw [if_neg]
    intro ⟨h1, h2⟩
    rcases h with h | h
    · exact h ((hmem "song" (by decide)).mp h1)
    · exact h ((hmem "artist" (by decide)).mp h2)
  · intro df s a h
    unfold TracksCleaning2.remove_duplicates_and_generate_ids
    rcases h with h | h
    · rw [if_neg h]
    · by_cases hs : s ∈ df.cols
      · rw [if_pos hs, if_neg h]
      · rw [if_neg hs]
  · intro df
    rfl

/-- Witness for C6 at a concrete table. -/
theorem schema_mismatch_fatal_witness :
    ("song" ∉ (DF.mk ["artist"] []).cols) ∧
    ChartsCleaning2.process_charts_csv ⟨["artist"], []⟩ = none :=
  ⟨by decide, schema_mismatch_fatal.1 ⟨["artist"], []⟩ (Or.inl (by decide))⟩

/-- Counterexample to C6 as stated: charts_cleaning_1 on a table
without a song column does not abort — it writes a transformed output
frame (with the artist column cleaned and no song_id added). -/
theorem schema_mismatch_fatal_cx :
    "song" ∉ (DF.mk ["artist", "rank"] []).cols ∧
    ChartsCleaning1.process_charts_csv ⟨["artist", "rank"], []⟩ =
      some ⟨["artist", "rank"], []⟩ :=
  ⟨by decide, by decide⟩

/-! Idempotence of the strip model, for the multi-value split. -/

namespace Py

theorem dropWhile_head_false {α : Type} (p : α → Bool) :
    ∀ (l : List α) (c : α) (t : List α), l.dropWhile p = c :: t → p c = false := by
  intro l
  induction l with
  | nil => intro c t h; simp [List.dropWhile] at h
  | cons x xs ih =>
    intro c t h
    by_cases hx : p x = true
    · rw [List.dropWhile_cons_of_pos hx] at h
      exact ih c t h
    · rw [List.dropWhile_cons_of_neg hx] at h
      cases h
      simpa using hx

theorem dropWhile_idem {α : Type} (p : α → Bool) (l : List α) :
    (l.dropWhile p).dropWhile p = l.dropWhile p := by
  cases h : l.dropWhile p with
  | nil => rfl
  | cons c t =>
    rw [List.dropWhile_cons_of_neg (by simp [dropWhile_head_false p l c t h])]

theorem dropWhile_exists_dropped {α : Type} (p : α → Bool) :
    ∀ l : List α, ∃ t, t ++ l.dropWhile p = l := by
  intro l
  induction l with
  | nil => exact ⟨[], rfl⟩
  | cons x xs ih =>
    by_cases hx : p x = true
    · rcases ih with ⟨t, ht⟩
      exact ⟨x :: t, by rw [List.dropWhile_cons_of_pos hx, List.cons_append, ht]⟩
    · exact ⟨[], by rw [List.dropWhile_cons_of_neg hx]; rfl⟩

theorem stripChars_no_leading_ws (l : List Char) :
    (stripChars l).dropWhile isPyWhitespace = stripChars l := by
  rcases dropWhile_exists_dropped isPyWhitespace
    ((l.dropWhile isPyWhitespace).reverse) with ⟨t, ht⟩
  cases hB : stripChars l with
  | nil => rfl
  | cons c bs =>
    have hBr : (l.dropWhile isPyWhitespace).reverse.dropWhile isPyWhitespace =
        bs.reverse ++ [c] := by
      have : ((l.dropWhile isPyWhitespace).reverse.dropWhile isPyWhitespace).reverse =
          c :: bs := hB
      calc (l.dropWhile isPyWhitespace).reverse.dropWhile isPyWhitespace
          = (((l.dropWhile isPyWhitespace).reverse.dropWhile
              isPyWhitespace).reverse).reverse := (List.reverse_reverse _).symm
        _ = (c :: bs).reverse := by rw [this]
        _ = bs.reverse ++ [c] := by rw [List.reverse_cons]
    have hA : l.dropWhile isPyWhitespace = c :: (bs ++ t.reverse) := by
      have h2 : t ++ (bs.reverse ++ [c]) = (l.dropWhile isPyWhitespace).reverse := by
        rw [← hBr]; exact ht
      have h3 : l.dropWhile isPyWhitespace =
          (t ++ (bs.reverse ++ [c])).reverse := by
        rw [h2, List.reverse_reverse]
      rw [h3, List.reverse_append, List.reverse_append]
      simp
    have hc : isPyWhitespace c = false :=
      dropWhile_head_false isPyWhitespace l c _ hA
    rw [List.dropWhile_cons_of_neg (by simp [hc])]

theorem stripChars_idem (l : List Char) :
    stripChars (stripChars l) = stripChars l := by
  have h1 := stripChars_no_leading_ws l
  have h2 : (stripChars l).reverse =
      (l.dropWhile isPyWhitespace).reverse.dropWhile isPyWhitespace := by
    unfold stripChars
    rw [List.reverse_reverse]
  calc stripChars (stripChars l)
      = (((stripChars l).dropWhile isPyWhitespace).reverse.dropWhile
          isPyWhitespace).reverse := rfl
    _ = ((stripChars l).reverse.dropWhile isPyWhitespace).reverse := by rw [h1]
    _ = (((l.dropWhile isPyWhitespace).reverse.dropWhile isPyWhitespace).dropWhile
          isPyWhitespace).reverse := by rw [h2]
    _ = ((l.dropWhile isPyWhitespace).reverse.dropWhile isPyWhitespace).reverse := by
        rw [dropWhile_idem]
    _ = stripChars l := rfl

end Py

/-- C8 (amended): the multi-value split of artists_cleaning_1 splits on
the delimiter and trims surrounding whitespace from every piece — the
two example splits hold — but empty pieces are kept, not dropped (see
the counterexample). -/
theorem multi_value_split :
    ArtistsCleaning1.split_multi_value "Dua Lipa, Elton John" ',' =
      ["Dua Lipa", "Elton John"] ∧
    ArtistsCleaning1.split_multi_value "Solo Artist" ',' = ["Solo Artist"] ∧
    (∀ (raw : String) (d : Char) (p : String),
      p ∈ ArtistsCleaning1.split_multi_value raw d → p = Py.strip p) := by
  refine ⟨by decide, by decide, ?_⟩
  intro raw d p hp
  rcases List.mem_map.mp hp with ⟨q, _, hqe⟩
  subst hqe
  exact congrArg String.mk (Py.stripChars_idem q).symm

/-- Witness for C8 at a concrete piece. -/
theorem multi_value_split_witness :
    "Solo Artist" ∈ ArtistsCleaning1.split_multi_value " Solo Artist " ',' ∧
    "Solo Artist" = Py.strip "Solo Artist" :=
  ⟨by decide, multi_value_split.2.2 " Solo Artist " ',' "Solo Artist" (by decide)⟩

/-- Counterexample to C8 as stated: a doubled delimiter yields an empty
piece in the output, so empty pieces are not dropped. -/
theorem multi_value_split_cx :
    ArtistsCleaning1.split_multi_value "a,,b" ',' = ["a", "", "b"] ∧
    "" ∈ ArtistsCleaning1.split_multi_value "a,,b" ',' ∧
    ArtistsCleaning1.split_multi_value "a,,b" ',' ≠ ["a", "b"] :=
  ⟨by decide, by decide, by decide⟩

/-! Lemmas for charts_cleaning_3. -/

theorem rstrip_append_newline (s : List Char)
    (h : ∀ c ∈ s, ChartsCleaning3.isNewlineChar c = false) :
    ChartsCleaning3.rstripNewlines (s ++ ['\n']) = s := by
  unfold ChartsCleaning3.rstripNewlines
  rw [List.reverse_append]
  simp only [List.reverse_cons, List.reverse_nil, List.nil_append,
    List.singleton_append]
  rw [List.dropWhile_cons_of_pos (by decide)]
  cases hs : s.reverse with
  | nil =>
    have : s = [] := by simpa using congrArg List.reverse hs
    simp [this]
  | cons c t =>
    have hcs : c ∈ s := by
      have : c ∈ s.reverse := by rw [hs]; exact List.mem_cons_self _ _
      exact List.mem_reverse.mp this
    calc (List.dropWhile ChartsCleaning3.isNewlineChar (c :: t)).reverse
        = (c :: t).reverse := by
          rw [List.dropWhile_cons_of_neg (by simp [h c hcs])]
      _ = s := by rw [← hs, List.reverse_reverse]

/-- C10 (amended): charts_cleaning_3 keeps the header line unchanged and
the line count equal; every further line is stripped of trailing newline
characters, loses exactly its last two characters precisely when the
stripped line ends in dot-zero, and is written back with a single
newline — so a line already terminated by one newline is unchanged when
it does not end in dot-zero, while a final line lacking its newline
gains one (see the counterexample). -/
theorem trailing_dotzero_strip :
    ∀ lines : List String,
      (ChartsCleaning3.process lines).length = lines.length ∧
      (ChartsCleaning3.process lines).head? = lines.head? ∧
      (∀ (i : Nat) (s : List Char),
        lines[i + 1]? = some (String.mk (s ++ ['\n'])) →
        (∀ c ∈ s, ChartsCleaning3.isNewlineChar c = false) →
        ((ChartsCleaning3.endsDotZero s = false →
            (ChartsCleaning3.process lines)[i + 1]? = lines[i + 1]?) ∧
          (ChartsCleaning3.endsDotZero s = true →
            (ChartsCleaning3.process lines)[i + 1]? =
              some (String.mk (ChartsCleaning3.stripDotZero s ++ ['\n'])) ∧
            s = ChartsCleaning3.stripDotZero s ++ ['.', '0']))) := by
  intro lines
  refine ⟨?_, ?_, ?_⟩
  · simp [ChartsCleaning3.process]
  · cases lines with
    | nil => rfl
    | cons x ls => rfl
  · intro i s hline hfree
    have hget : (ChartsCleaning3.process lines)[i + 1]? =
        (lines[i + 1]?).map fun line =>
          String.mk (ChartsCleaning3.stripDotZero
            (ChartsCleaning3.rstripNewlines line.data) ++ ['\n']) := by
      unfold ChartsCleaning3.process
      rw [List.getElem?_map, List.getElem?_enum]
      cases lines[i + 1]? with
      | none => rfl
      | some line => simp
    rw [hline] at hget
    have hr : ChartsCleaning3.rstripNewlines (String.mk (s ++ ['\n'])).data = s :=
      rstrip_append_newline s hfree
    simp only [Option.map_some'] at hget
    rw [hr] at hget
    constructor
    · intro hf
      have hsz : ChartsCleaning3.stripDotZero s = s := by
        simp [ChartsCleaning3.stripDotZero, hf]
      rw [hget, hsz, hline]
    · intro ht
      have htk : s.reverse.take 2 = ['0', '.'] := of_decide_eq_true ht
      have hsz : ChartsCleaning3.stripDotZero s = (s.reverse.drop 2).reverse := by
        simp [ChartsCleaning3.stripDotZero, ht]
      refine ⟨by rw [hget], ?_⟩
      rw [hsz]
      calc s = s.reverse.reverse := (List.reverse_reverse s).symm
        _ = (s.reverse.take 2 ++ s.reverse.drop 2).reverse := by
            rw [List.take_append_drop]
        _ = (s.reverse.drop 2).reverse ++ (s.reverse.take 2).reverse := by
            rw [List.reverse_append]
        _ = (s.reverse.drop 2).reverse ++ ['.', '0'] := by rw [htk]; rfl

/-- Witness for C10 on a concrete file. -/
theorem trailing_dotzero_strip_witness :
    (ChartsCleaning3.process ["h\n", "ab.0\n"])[1]? =
        some (String.mk (ChartsCleaning3.stripDotZero "ab.0".data ++ ['\n'])) ∧
    "ab.0".data = ChartsCleaning3.stripDotZero "ab.0".data ++ ['.', '0'] :=
  ((trailing_dotzero_strip ["h\n", "ab.0\n"]).2.2 0 "ab.0".data
    (by decide) (by decide)).2 (by decide)

/-- Counterexample to C10 as stated: a final line with no trailing
newline and no dot-zero suffix is still rewritten — it gains a newline
— so the untouched-line part of the claim fails there. -/
theorem trailing_dotzero_strip_cx :
    ChartsCleaning3.process ["h\n", "abc"] = ["h\n", "abc\n"] ∧
    (ChartsCleaning3.process ["h\n", "abc"])[1]? ≠
      (["h\n", "abc"] : List String)[1]? :=
  ⟨by decide, by decide⟩

/-! Lemmas for the merge-by-append of merge_tracks_and_popularity. -/

theorem reindexRow_eq_self :
    ∀ (r : Row) (cols : List String), r.map Prod.fst = cols → cols.Nodup →
      reindexRow cols r = r := by
  intro r
  induction r with
  | nil =>
    intro cols hc _
    rw [← hc]
    rfl
  | cons p rest ih =>
    intro cols hc hnd
    rw [← hc] at hnd ⊢
    rw [List.map_cons] at hnd
    rcases List.nodup_cons.mp hnd with ⟨hp, hrest⟩
    unfold reindexRow
    rw [List.map_cons, List.map_cons]
    have hhead : getCell (p :: rest) p.1 = p.2 := by
      rw [getCell, if_pos rfl]
    rw [hhead]
    have htail : (rest.map Prod.fst).map
        (fun c => (c, getCell (p :: rest) c)) =
        (rest.map Prod.fst).map (fun c => (c, getCell rest c)) := by
      apply List.map_congr_left
      intro c hcm
      have hcp : ¬ p.1 = c := fun he => hp (he ▸ hcm)
      rw [getCell, if_neg hcp]
    rw [htail]
    have := ih (rest.map Prod.fst) rfl hrest
    unfold reindexRow at this
    rw [this]

theorem setCell_map_fst (r : Row) (c : String) (v : Option String)
    (h : c ∈ r.map Prod.fst) :
    (setCell r c v).map Prod.fst = r.map Prod.fst := by
  unfold setCell
  have hany : (r.any fun p => decide (p.1 = c)) = true := by
    rcases List.mem_map.mp h with ⟨p, hp, hpe⟩
    exact List.any_eq_true.mpr ⟨p, hp, by simp [hpe]⟩
  rw [if_pos hany, List.map_map]
  apply List.map_congr_left
  intro p _
  by_cases hp : p.1 = c
  · simp [Function.comp, hp]
  · simp [Function.comp, hp]

theorem newRow_map_fst (tc pc : List String) (pr : Row) :
    (MergeTracksPopularity.newRow tc pc pr).map Prod.fst = tc := by
  unfold MergeTracksPopularity.newRow
  have haux : ∀ (entries : List (String × String)) (r : Row),
      r.map Prod.fst = tc →
      (entries.foldl
        (fun r p =>
          if p.1 ∈ pc ∧ p.2 ∈ tc then setCell r p.2 (getCell pr p.1) else r)
        r).map Prod.fst = tc := by
    intro entries
    induction entries with
    | nil => intro r h; exact h
    | cons e es ih =>
      intro r h
      rw [List.foldl_cons]
      by_cases he : e.1 ∈ pc ∧ e.2 ∈ tc
      · rw [if_pos he]
        refine ih _ ?_
        rw [setCell_map_fst _ _ _ (by rw [h]; exact he.2)]
        exact h
      · rw [if_neg he]; exact ih r h
  refine haux _ _ ?_
  have : (Prod.fst ∘ fun c : String => (c, (none : Option String))) = id := rfl
  rw [List.map_map, this, List.map_id]

theorem fold_frame_none (tc pc : List String) (pr : Row) (c : String) :
    ∀ (entries : List (String × String)) (r : Row),
      c ∉ entries.map Prod.snd →
      getCell (entries.foldl
        (fun r p =>
          if p.1 ∈ pc ∧ p.2 ∈ tc then setCell r p.2 (getCell pr p.1) else r)
        r) c = getCell r c := by
  intro entries
  induction entries with
  | nil => intro r _; rfl
  | cons e es ih =>
    intro r h
    rw [List.map_cons] at h
    have hne : c ≠ e.2 := fun he => h (he ▸ List.mem_cons_self _ _)
    have hes : c ∉ es.map Prod.snd := fun he => h (List.mem_cons_of_mem _ he)
    rw [List.foldl_cons]
    by_cases hc : e.1 ∈ pc ∧ e.2 ∈ tc
    · rw [if_pos hc, ih _ hes, getCell_setCell_other _ _ _ _ hne]
    · rw [if_neg hc]
      exact ih r hes

theorem getCell_allNone (tc : List String) (c : String) :
    getCell (tc.map fun c2 => (c2, (none : Option String))) c = none := by
  induction tc with
  | nil => rfl
  | cons x xs ih =>
    rw [List.map_cons, getCell]
    by_cases hx : x = c
    · rw [if_pos hx]
    · rw [if_neg hx]; exact ih

/-- C9: merge_csv_files appends one row per popularity row to the
tracks frame — for a well-formed tracks frame the output keeps exactly
the tracks columns, starts with the tracks rows unchanged and in order,
continues with the built rows in popularity order, has length equal to
the sum of the two row counts; every field of a built row whose column
is not a mapping destination stays absent, and the popularity column is
not a mapping source, so its values are dropped. -/
theorem merge_by_append_frame :
    ∀ tracks pop : DF,
      tracks.cols.Nodup →
      (∀ r ∈ tracks.rows, r.map Prod.fst = tracks.cols) →
      (MergeTracksPopularity.merge_csv_files tracks pop).cols = tracks.cols ∧
      (MergeTracksPopularity.merge_csv_files tracks pop).rows =
        tracks.rows ++
          pop.rows.map (MergeTracksPopularity.newRow tracks.cols pop.cols) ∧
      (MergeTracksPopularity.merge_csv_files tracks pop).rows.length =
        tracks.rows.length + pop.rows.length ∧
      (∀ (pr : Row) (c : String),
        c ∉ MergeTracksPopularity.column_mapping.map Prod.snd →
        getCell (MergeTracksPopularity.newRow tracks.cols pop.cols pr) c = none) ∧
      "popularity" ∉ MergeTracksPopularity.column_mapping.map Prod.fst := by
  intro tracks pop hnd hwf
  have hfilter : ∀ bc : List String, (∀ c ∈ bc, c ∈ tracks.cols) →
      tracks.cols ++ bc.filter (· ∉ tracks.cols) = tracks.cols := by
    intro bc hbc
    rw [List.filter_eq_nil_iff.mpr fun c hc => by simpa using hbc c hc,
      List.append_nil]
  have hbcols : ∀ c ∈ (if pop.rows.isEmpty then [] else tracks.cols),
      c ∈ tracks.cols := by
    intro c hc
    by_cases hp : pop.rows.isEmpty
    · rw [if_pos hp] at hc; simp at hc
    · rw [if_neg hp] at hc; exact hc
  have hcols : (MergeTracksPopularity.merge_csv_files tracks pop).cols =
      tracks.cols := by
    simp only [MergeTracksPopularity.merge_csv_files,
      MergeTracksPopularity.concatDF]
    exact hfilter _ hbcols
  have hrows : (MergeTracksPopularity.merge_csv_files tracks pop).rows =
      tracks.rows ++
        pop.rows.map (MergeTracksPopularity.newRow tracks.cols pop.cols) := by
    simp only [MergeTracksPopularity.merge_csv_files,
      MergeTracksPopularity.concatDF]
    rw [hfilter _ hbcols, List.map_append]
    have h1 : tracks.rows.map (reindexRow tracks.cols) = tracks.rows := by
      rw [List.map_congr_left fun r hr => reindexRow_eq_self r _ (hwf r hr) hnd]
      exact List.map_id _
    have h2 : (pop.rows.map
          (MergeTracksPopularity.newRow tracks.cols pop.cols)).map
            (reindexRow tracks.cols) =
        pop.rows.map (MergeTracksPopularity.newRow tracks.cols pop.cols) := by
      rw [List.map_congr_left fun r hr => reindexRow_eq_self r _ ?_ hnd]
      · exact List.map_id _
      · rcases List.mem_map.mp hr with ⟨pr, _, hpr⟩
        rw [← hpr]
        exact newRow_map_fst _ _ _
    rw [h1, h2]
  refine ⟨hcols, hrows, ?_, ?_, by decide⟩
  · rw [hrows, List.length_append, List.length_map]
  · intro pr c hc
    unfold MergeTracksPopularity.newRow
    rw [fold_frame_none _ _ _ _ _ _ hc]
    exact getCell_allNone _ _

/-- Witness for C9 at concrete frames. -/
theorem merge_by_append_frame_witness :
    (MergeTracksPopularity.merge_csv_files
        ⟨["id", "name"], [[("id", some "t1"), ("name", some "Song")]]⟩
        ⟨["track_id", "track_name", "popularity"],
          [[("track_id", some "p1"), ("track_name", some "P"),
            ("popularity", some "9")]]⟩).cols = ["id", "name"] ∧
    (MergeTracksPopularity.merge_csv_files
        ⟨["id", "name"], [[("id", some "t1"), ("name", some "Song")]]⟩
        ⟨["track_id", "track_name", "popularity"],
          [[("track_id", some "p1"), ("track_name", some "P"),
            ("popularity", some "9")]]⟩).rows.length = 1 + 1 :=
  ⟨(merge_by_append_frame ⟨["id", "name"],
      [[("id", some "t1"), ("name", some "Song")]]⟩
      ⟨["track_id", "track_name", "popularity"],
        [[("track_id", some "p1"), ("track_name", some "P"),
          ("popularity", some "9")]]⟩ (by decide) (by decide)).1,
   (merge_by_append_frame ⟨["id", "name"],
      [[("id", some "t1"), ("name", some "Song")]]⟩
      ⟨["track_id", "track_name", "popularity"],
        [[("track_id", some "p1"), ("track_name", some "P"),
          ("popularity", some "9")]]⟩ (by decide) (by decide)).2.2.1⟩

/-! Lemmas for the deduplication of tracks_cleaning_2. -/

theorem tracks2_remove_dup_eq (df : DF) (s a : String)
    (hsc : s ∈ df.cols) (hac : a ∈ df.cols) :
    TracksCleaning2.remove_duplicates_and_generate_ids df s a =
      some (DF.mk
        ("song_id" ::
          (if "song_id" ∈ df.cols then df.cols
            else df.cols ++ ["song_id"]).filter (· ≠ "song_id"))
        ((dedupFirst TracksCleaning2.normColsKey []
            ((df.rows.map (TracksCleaning2.addSongId s a)).map
              (TracksCleaning2.addNormCols s a))).map
          (TracksCleaning2.finalizeRow ("song_id" ::
            (if "song_id" ∈ df.cols then df.cols
              else df.cols ++ ["song_id"]).filter (· ≠ "song_id"))))) := by
  unfold TracksCleaning2.remove_duplicates_and_generate_ids
  rw [if_pos hsc, if_pos hac]

theorem tracks2_normColsKey_comp (s a : String) (hs : s ≠ "song_id")
    (ha : a ≠ "song_id") (r : Row) :
    TracksCleaning2.normColsKey
        (TracksCleaning2.addNormCols s a (TracksCleaning2.addSongId s a r)) =
      (some ((TracksCleaning2.rowKey s a r).1),
        some ((TracksCleaning2.rowKey s a r).2)) := by
  simp only [TracksCleaning2.normColsKey, TracksCleaning2.addNormCols,
    TracksCleaning2.addSongId, TracksCleaning2.rowKey]
  rw [getCell_setCell_other _ _ _ _
      (by decide : ("normalized_song" : String) ≠ "normalized_artist"),
    getCell_setCell_same, getCell_setCell_same,
    getCell_setCell_other _ _ _ _ hs, getCell_setCell_other _ _ _ _ ha]

/-- C2: deduplication keys each row by the canonical pair of normalized
song and artist; when it produces an output, the output rows are
exactly the keep-first filter of the input rows (each one augmented and
reindexed): the kept rows form a subsequence of the input in original
order, their keys are pairwise distinct, every kept row is the first
input row carrying its key, every input key is represented — and on the
concrete table with rows A, B and a case-and-whitespace variant of A,
only A and B survive, in order. -/
theorem dedup_stability :
    (∀ (df : DF) (s a : String) (df2 : DF),
      s ≠ "song_id" → a ≠ "song_id" →
      TracksCleaning2.remove_duplicates_and_generate_ids df s a = some df2 →
      df2.rows =
        (dedupFirst (TracksCleaning2.rowKey s a) [] df.rows).map
          (fun r => TracksCleaning2.finalizeRow
            ("song_id" :: (if "song_id" ∈ df.cols then df.cols
                else df.cols ++ ["song_id"]).filter (· ≠ "song_id"))
            (TracksCleaning2.addNormCols s a (TracksCleaning2.addSongId s a r))) ∧
      List.Sublist (dedupFirst (TracksCleaning2.rowKey s a) [] df.rows) df.rows ∧
      ((dedupFirst (TracksCleaning2.rowKey s a) [] df.rows).map
        (TracksCleaning2.rowKey s a)).Nodup ∧
      (∀ r ∈ dedupFirst (TracksCleaning2.rowKey s a) [] df.rows,
        df.rows.find?
          (fun x => decide (TracksCleaning2.rowKey s a x =
            TracksCleaning2.rowKey s a r)) = some r) ∧
      (∀ r ∈ df.rows, ∃ r2 ∈ dedupFirst (TracksCleaning2.rowKey s a) [] df.rows,
        TracksCleaning2.rowKey s a r2 = TracksCleaning2.rowKey s a r)) ∧
    (TracksCleaning2.remove_duplicates_and_generate_ids
        ⟨["name", "artists"],
          [[("name", some "Hello"), ("artists", some "Adele")],
            [("name", some "World"), ("artists", some "Adele")],
            [("name", some " HELLO "), ("artists", some "Adele")]]⟩
        "name" "artists").map (fun d => d.rows.map (getCell · "name")) =
      some [some "Hello", some "World"] := by
  constructor
  · intro df s a df2 hs ha h
    have hsc : s ∈ df.cols := by
      by_contra hc
      unfold TracksCleaning2.remove_duplicates_and_generate_ids at h
      rw [if_neg hc] at h
      exact absurd h (by simp)
    have hac : a ∈ df.cols := by
      by_contra hc
      unfold TracksCleaning2.remove_duplicates_and_generate_ids at h
      rw [if_pos hsc, if_neg hc] at h
      exact absurd h (by simp)
    have heq := tracks2_remove_dup_eq df s a hsc hac
    have hdf2 := Option.some.inj (h.symm.trans heq)
    refine ⟨?_, dedupFirst_sublist _ _ _, dedupFirst_keys_nodup _ _ _,
      fun r hr => dedupFirst_first_occurrence _ _ _ r hr,
      fun r hr => ?_⟩
    · rw [hdf2]
      show (dedupFirst TracksCleaning2.normColsKey []
          ((df.rows.map (TracksCleaning2.addSongId s a)).map
            (TracksCleaning2.addNormCols s a))).map _ = _
      rw [List.map_map, dedupFirst_map_comm]
      rw [dedupFirst_key_congr _
        (TracksCleaning2.rowKey s a)
        (fun x y => by
          simp only [Function.comp_apply]
          rw [tracks2_normColsKey_comp s a hs ha x,
            tracks2_normColsKey_comp s a hs ha y]
          simp [Prod.ext_iff])
        df.rows [] [] (fun x => by simp)]
      rw [List.map_map]
      rfl
    · rcases dedupFirst_covers (TracksCleaning2.rowKey s a) df.rows [] r hr with
        hfalse | hex
      · simp at hfalse
      · exact hex
  · decide

/-- Witness for C2 at a concrete table. -/
theorem dedup_stability_witness :
    ("name" : String) ≠ "song_id" ∧
    TracksCleaning2.remove_duplicates_and_generate_ids
        ⟨["name", "artists"], []⟩ "name" "artists" =
      some ⟨["song_id", "name", "artists"], []⟩ ∧
    List.Sublist
      (dedupFirst (TracksCleaning2.rowKey "name" "artists") []
        (DF.mk ["name", "artists"] []).rows)
      (DF.mk ["name", "artists"] []).rows :=
  ⟨by decide, by decide,
   (dedup_stability.1 ⟨["name", "artists"], []⟩ "name" "artists"
     ⟨["song_id", "name", "artists"], []⟩ (by decide) (by decide)
     (by decide)).2.1⟩
